import Mathlib

/-
Verification of the ClaudeShield core: the policy engine (command and file-access
evaluation), the in-container enforcement shell, the sandbox engine's guarded
command execution, the multi-agent orchestrator, and the checkpoint/rollback
manager.

Modelling conventions: Go strings are `List Char` (one entry per rune; the
verified inputs are ASCII, where Go's byte-wise and rune-wise views agree).
Docker, the filesystem and git are oracles: records of call results passed
explicitly to the operations that use them.  Wall-clock timestamp fields
(CreatedAt, UpdatedAt, Timestamp) are omitted from records because no verified
property reads them.  Loops whose Go termination argument is an index into a
shrinking string are given an explicit fuel argument initialised to a provably
sufficient bound (each iteration consumes at least one character).
-/

namespace types

/-- pkg/types: PolicyAction defines what to do when a rule matches. -/
inductive PolicyAction where
  | allow
  | block
  | audit
  | pause
deriving DecidableEq, Repr

/-- pkg/types: Rule defines a single policy rule for command/file filtering. -/
structure Rule where
  Pattern : List Char
  Action : PolicyAction
  Reason : List Char
deriving DecidableEq, Repr

/-- pkg/types: RulesConfig groups allow and block rules. -/
structure RulesConfig where
  Allow : List Rule
  Block : List Rule
deriving DecidableEq, Repr

/-- pkg/types: ProjectConfig, restricted to its Rules section.  The Sandbox,
Secrets and Audit sections configure external collaborators and are read by
none of the verified operations. -/
structure ProjectConfig where
  Rules : RulesConfig
deriving DecidableEq, Repr

/-- pkg/types: SessionState. -/
inductive SessionState where
  | creating
  | running
  | paused
  | stopped
  | error
deriving DecidableEq, Repr

/-- pkg/types: Session (timestamps omitted). -/
structure Session where
  ID : List Char
  ProjectDir : List Char
  ContainerID : List Char
  State : SessionState
  AgentName : List Char
  WorktreeDir : List Char
deriving DecidableEq, Repr

/-- pkg/types: Checkpoint (CreatedAt omitted). -/
structure Checkpoint where
  ID : List Char
  SessionID : List Char
  ImageID : List Char
  Description : List Char
deriving DecidableEq, Repr

/-- pkg/types: AuditEntry (Timestamp omitted). -/
structure AuditEntry where
  SessionID : List Char
  AgentName : List Char
  EventType : List Char
  Command : List Char := []
  FilePath : List Char := []
  Action : PolicyAction
  Reason : List Char := []
  RulePattern : List Char := []
deriving DecidableEq, Repr

end types

namespace policy

/-- Go unicode.IsSpace: the characters strings.TrimSpace trims (the Latin-1
set plus the Unicode White_Space code points). -/
def goIsSpace (c : Char) : Bool :=
  c == ' ' || c == '\t' || c == '\n' || c == '\x0b' || c == '\x0c' || c == '\r' ||
  c.val == 0x85 || c.val == 0xa0 || c.val == 0x1680 ||
  (0x2000 ≤ c.val && c.val ≤ 0x200a) || c.val == 0x2028 || c.val == 0x2029 ||
  c.val == 0x202f || c.val == 0x205f || c.val == 0x3000

/-- strings.TrimSpace. -/
def goTrimSpace (s : List Char) : List Char :=
  ((s.dropWhile goIsSpace).reverse.dropWhile goIsSpace).reverse

/-- Result of path/filepath Match: a boolean, or ErrBadPattern. -/
inductive MatchRes where
  | ok (b : Bool)
  | bad
deriving DecidableEq, Repr

/-- Discard the error, as `matched, _ := filepath.Match(...)` does (on the error
path Go returns matched = false). -/
def MatchRes.matched : MatchRes → Bool
  | .ok b => b
  | .bad => false

/-- scanChunk, first phase: consume the leading run of stars. -/
def dropStars : List Char → Bool × List Char
  | [] => (false, [])
  | c :: p => if c = '*' then (true, (dropStars p).2) else (false, c :: p)

/-- scanChunk, second phase: scan the chunk body up to the next star that is
outside a character class (`inr` is Go's inrange flag). -/
def scanBody (inr : Bool) : List Char → List Char × List Char
  | [] => ([], [])
  | c :: p =>
    if c = '\\' then
      match p with
      | [] => (['\\'], [])
      | c2 :: p2 =>
        let (ch, r) := scanBody inr p2
        ('\\' :: c2 :: ch, r)
    else if c = '[' then
      let (ch, r) := scanBody true p
      ('[' :: ch, r)
    else if c = ']' then
      let (ch, r) := scanBody false p
      (']' :: ch, r)
    else if c = '*' then
      if inr then
        let (ch, r) := scanBody inr p
        ('*' :: ch, r)
      else ([], c :: p)
    else
      let (ch, r) := scanBody inr p
      (c :: ch, r)

/-- scanChunk from path/filepath: splits the pattern into a leading-star flag,
the next chunk, and the remaining pattern. -/
def scanChunk (pattern : List Char) : Bool × List Char × List Char :=
  let (star, p) := dropStars pattern
  let (chunk, rest) := scanBody false p
  (star, chunk, rest)

/-- getEsc: one (possibly backslash-escaped) character of a character class;
`none` is ErrBadPattern. -/
def getEsc : List Char → Option (Char × List Char)
  | [] => none
  | '-' :: _ => none
  | ']' :: _ => none
  | '\\' :: rest =>
    match rest with
    | [] => none
    | c :: rest2 => if rest2 = [] then none else some (c, rest2)
  | c :: rest => if rest = [] then none else some (c, rest)

/-- The range-parsing loop of matchChunk's character-class case.  `r` is the
rune being matched (the zero rune while scanning in failed mode); `acc` is the
accumulated match flag and `nrange` the number of ranges parsed so far.
Returns `none` on a malformed class.  Fuel: each iteration consumes at least
one character via getEsc, so `chunk.length + 1` suffices. -/
def classRanges (r : Char) : Nat → List Char → Bool → Nat → Option (Bool × List Char)
  | 0, _, _, _ => none
  | fuel + 1, chunk, acc, nrange =>
    if chunk.head? = some ']' ∧ 0 < nrange then some (acc, chunk.tail)
    else
      match getEsc chunk with
      | none => none
      | some (lo, c1) =>
        match c1 with
        | '-' :: c2 =>
          match getEsc c2 with
          | none => none
          | some (hi, c3) => classRanges r fuel c3 (acc || (lo ≤ r && r ≤ hi)) (nrange + 1)
        | _ => classRanges r fuel c1 (acc || (lo ≤ r && r ≤ lo)) (nrange + 1)

/-- Result of matchChunk: the rest of the name on success, a failed match, or
ErrBadPattern. -/
inductive ChunkRes where
  | ok (rest : List Char)
  | nomatch
  | bad
deriving DecidableEq, Repr

/-- matchChunk from path/filepath, with Go's `failed` flag as an explicit
parameter.  In failed mode the chunk is still scanned so malformed classes are
reported.  Fuel: each iteration consumes at least one chunk character, so
`chunk.length + 1` suffices. -/
def matchChunkF : Nat → List Char → List Char → Bool → ChunkRes
  | 0, _, _, _ => .bad
  | fuel + 1, chunk, s, failed0 =>
    match chunk with
    | [] => if failed0 then .nomatch else .ok s
    | c :: rest =>
      let failed := failed0 || s.isEmpty
      if c = '[' then
        let r := if failed then Char.ofNat 0 else s.headD (Char.ofNat 0)
        let s1 := if failed then s else s.tail
        let negated : Bool := decide (rest.head? = some '^')
        let rest1 := if rest.head? = some '^' then rest.tail else rest
        match classRanges r (rest1.length + 1) rest1 false 0 with
        | none => .bad
        | some (m, rest2) => matchChunkF fuel rest2 s1 (failed || (m == negated))
      else if c = '?' then
        if failed then matchChunkF fuel rest s true
        else matchChunkF fuel rest s.tail (s.headD (Char.ofNat 0) == '/')
      else if c = '\\' then
        match rest with
        | [] => .bad
        | c2 :: rest2 =>
          if failed then matchChunkF fuel rest2 s true
          else matchChunkF fuel rest2 s.tail (c2 != s.headD (Char.ofNat 0))
      else
        if failed then matchChunkF fuel rest s true
        else matchChunkF fuel rest s.tail (c != s.headD (Char.ofNat 0))

/-- matchChunk with its fuel initialised. -/
def matchChunk (chunk s : List Char) : ChunkRes :=
  matchChunkF (chunk.length + 1) chunk s false

/-- The final loop of filepath.Match: before returning a failed match, the rest
of the pattern is checked chunk by chunk (against the empty name) for syntactic
validity.  Fuel: scanChunk consumes at least one character, so
`pattern.length + 1` suffices. -/
def chunksValid : Nat → List Char → MatchRes
  | 0, _ => .bad
  | _, [] => .ok false
  | fuel + 1, pattern =>
    let (_, chunk, rest) := scanChunk pattern
    match matchChunk chunk [] with
    | .bad => .bad
    | _ => chunksValid fuel rest

/-- The inner loop of filepath.Match for a starred chunk: try to match the
chunk at each later position of the name, never skipping past a separator.
`next` is the continuation for the remaining pattern (the outer loop at
smaller fuel). -/
def starLoopF (next : List Char → List Char → MatchRes) (chunk rest : List Char) :
    List Char → MatchRes
  | [] => chunksValid (rest.length + 1) rest
  | c :: name2 =>
    if c = '/' then chunksValid (rest.length + 1) rest
    else
      match matchChunk chunk name2 with
      | .bad => .bad
      | .ok t =>
        if rest.isEmpty && !t.isEmpty then starLoopF next chunk rest name2
        else next rest t
      | .nomatch => starLoopF next chunk rest name2

/-- The outer loop of filepath.Match.  Fuel: every recursive step (direct, or
through starLoopF's continuation) strictly shrinks the pattern, so
`pattern.length + 1` suffices. -/
def goMatchF : Nat → List Char → List Char → MatchRes
  | 0, _, _ => .bad
  | fuel + 1, pattern, name =>
    match pattern with
    | [] => .ok name.isEmpty
    | _ =>
      let (star, chunk, rest) := scanChunk pattern
      if star ∧ chunk = [] then .ok (!(name.contains '/'))
      else
        match matchChunk chunk name with
        | .bad => .bad
        | .ok t =>
          if t.isEmpty || !rest.isEmpty then goMatchF fuel rest t
          else if star then starLoopF (fun r n => goMatchF fuel r n) chunk rest name
          else chunksValid (rest.length + 1) rest
        | .nomatch =>
          if star then starLoopF (fun r n => goMatchF fuel r n) chunk rest name
          else chunksValid (rest.length + 1) rest

/-- path/filepath Match (unix separator). -/
def goFilepathMatch (pattern name : List Char) : MatchRes :=
  goMatchF (pattern.length + 1) pattern name

/-- internal/policy matchPattern: glob-style pattern matching on commands.
Under the space-star guard, strings.TrimSuffix(pattern, " *") is
`pattern.take (pattern.length - 2)`; under the leading-star guard,
strings.TrimPrefix(pattern, "*") is `pattern.tail`. -/
def matchPattern (pattern command : List Char) : Bool :=
  if (' ' :: '*' :: []).isSuffixOf pattern &&
      (let pfx := pattern.take (pattern.length - 2)
       command == pfx || (pfx ++ [' ']).isPrefixOf command) then
    true
  else if pattern.head? == some '*' then
    pattern.tail.isSuffixOf command
  else if command == pattern then
    true
  else
    (goFilepathMatch pattern command).matched


/-- internal/policy: Engine evaluates commands and file accesses against the
policy rules. -/
structure Engine where
  config : types.ProjectConfig
deriving DecidableEq, Repr

/-- internal/policy: New creates a new policy engine with the given config. -/
def New (cfg : types.ProjectConfig) : Engine := { config := cfg }

/-- internal/policy: Config returns the underlying project config. -/
def Engine.Config (e : Engine) : types.ProjectConfig := e.config

/-- internal/policy: Result contains the outcome of a policy evaluation. -/
structure Result where
  Allowed : Bool
  Action : types.PolicyAction
  Rule : Option types.Rule
  Reason : List Char
deriving DecidableEq, Repr

/-- internal/policy EvaluateCommand: trim the command, scan block rules first
(first match wins, deny takes priority), then allow rules, else default-deny
with reason "Command not in allowlist". -/
def Engine.EvaluateCommand (e : Engine) (command0 : List Char) : Result :=
  let command := goTrimSpace command0
  match e.config.Rules.Block.find? (fun rule => matchPattern rule.Pattern command) with
  | some rule => { Allowed := false, Action := .block, Rule := some rule, Reason := rule.Reason }
  | none =>
    match e.config.Rules.Allow.find? (fun rule => matchPattern rule.Pattern command) with
    | some rule => { Allowed := true, Action := .allow, Rule := some rule, Reason := [] }
    | none =>
      { Allowed := false, Action := .block, Rule := none,
        Reason := "Command not in allowlist".data }

/-- filepath.Base (unix): strip trailing separators, then keep the part after
the last separator; empty input gives ".", all-separator input gives "/". -/
def goBase (path : List Char) : List Char :=
  if path = [] then ['.']
  else
    let r := path.reverse.dropWhile (fun c => c == '/')
    let seg := r.takeWhile (fun c => !(c == '/'))
    if seg = [] then ['/'] else seg.reverse

/-- The backtracking loop of filepath.Clean's dot-dot case.  Starting from
index w = out.length - 1 (Go has just decremented out.w), walk left while the
index is above dotdot and the character there is not a separator; the result
is the new buffer length. -/
def backW (out : List Char) (dotdot : Nat) : Nat → Nat
  | 0 => 0
  | w + 1 =>
    if dotdot < w + 1 && !(out.getD (w + 1) (Char.ofNat 0) == '/') then backW out dotdot w
    else w + 1

/-- The main loop of filepath.Clean (unix), with the lazybuf modelled as a
plain output list.  Fuel: each iteration consumes at least one input
character, so `path.length + 1` suffices. -/
def cleanLoop (rooted : Bool) : Nat → List Char → List Char → Nat → List Char
  | 0, _, out, _ => out
  | _, [], out, _ => out
  | fuel + 1, c :: p, out, dotdot =>
    if c = '/' then cleanLoop rooted fuel p out dotdot
    else if c = '.' ∧ (p = [] ∨ p.head? = some '/') then cleanLoop rooted fuel p out dotdot
    else if c = '.' ∧ p.head? = some '.' ∧ (p.tail = [] ∨ p.tail.head? = some '/') then
      let p2 := p.tail
      if dotdot < out.length then
        cleanLoop rooted fuel p2 (out.take (backW out dotdot (out.length - 1))) dotdot
      else if !rooted then
        let out2 := (if out = [] then out else out ++ ['/']) ++ ['.', '.']
        cleanLoop rooted fuel p2 out2 out2.length
      else cleanLoop rooted fuel p2 out dotdot
    else
      let out2 :=
        if (rooted ∧ out.length ≠ 1) ∨ (¬rooted ∧ out.length ≠ 0) then out ++ ['/'] else out
      let elem := (c :: p).takeWhile (fun d => !(d == '/'))
      let p2 := (c :: p).dropWhile (fun d => !(d == '/'))
      cleanLoop rooted fuel p2 (out2 ++ elem) dotdot

/-- filepath.Clean (unix). -/
def goClean (path : List Char) : List Char :=
  if path = [] then ['.']
  else
    let rooted : Bool := decide (path.head? = some '/')
    let out0 : List Char := if rooted then ['/'] else []
    let p0 := if rooted then path.tail else path
    let dd0 : Nat := if rooted then 1 else 0
    let res := cleanLoop rooted (p0.length + 1) p0 out0 dd0
    if res = [] then ['.'] else res

/-- filepath.Dir (unix): everything up to and including the final separator
(nothing, if there is none), cleaned. -/
def goDir (path : List Char) : List Char :=
  goClean (path.reverse.dropWhile (fun c => !(c == '/'))).reverse

/-- strings.Contains: sub occurs as a contiguous substring of s. -/
def goContains : List Char → List Char → Bool
  | [], sub => sub.isPrefixOf []
  | s@(_ :: t), sub => sub.isPrefixOf s || goContains t sub

/-- The sensitive basenames blocked by EvaluateFileAccess. -/
def sensitiveFiles : List (List Char) :=
  [".env".data, ".npmrc".data, ".pypirc".data,
   ".bash_history".data, ".zsh_history".data,
   ".gitconfig".data, "id_rsa".data, "id_ed25519".data]

/-- The sensitive parent directory names blocked by EvaluateFileAccess. -/
def sensitiveParents : List (List Char) := [".ssh".data, ".aws".data, ".gnupg".data]

/-- internal/policy EvaluateFileAccess (block sensitive basenames, .env.*
variants, sensitive parent directories and the Docker credential file; allow
under /workspace; block everything else).  The Go receiver is unused. -/
def EvaluateFileAccess (path : List Char) : Result :=
  let base := goBase path
  if sensitiveFiles.any (fun name => base == name) then
    { Allowed := false, Action := .block, Rule := none,
      Reason := "Access to sensitive file blocked: ".data ++ path }
  else if (".env.".data).isPrefixOf base then
    { Allowed := false, Action := .block, Rule := none,
      Reason := "Access to sensitive file blocked: ".data ++ path }
  else if (let dir := goDir path
           sensitiveParents.any (fun sd =>
             goBase dir == sd || goContains path ('/' :: (sd ++ ['/'])))) then
    { Allowed := false, Action := .block, Rule := none,
      Reason := "Access to sensitive file blocked: ".data ++ path }
  else if base == "config.json".data && goContains path ".docker".data then
    { Allowed := false, Action := .block, Rule := none,
      Reason := "Access to sensitive file blocked: ".data ++ path }
  else if ("/workspace".data).isPrefixOf path then
    { Allowed := true, Action := .allow, Rule := none, Reason := [] }
  else
    { Allowed := false, Action := .block, Rule := none,
      Reason := "Access outside workspace blocked: ".data ++ path }

end policy

namespace shell

/-- One member of a bash bracket expression, honouring backslash escapes. -/
def bashMember : List Char → Option (Char × List Char)
  | [] => none
  | '\\' :: rest =>
    match rest with
    | [] => none
    | c :: t => some (c, t)
  | c :: t => some (c, t)

/-- Parse the members of a bash bracket expression (after `[` and the optional
negation marker).  A `]` in first position is a literal member; `a-b` is a
range, with a trailing `-` literal.  `none` means the expression is
unterminated, in which case bash treats the `[` as a literal character.
Fuel: each iteration consumes at least one character. -/
def bashClassParse : Nat → List Char → Bool → Option (List (Char × Char) × List Char)
  | 0, _, _ => none
  | fuel + 1, l, isFirst =>
    match l with
    | [] => none
    | c :: t =>
      if c = ']' ∧ ¬isFirst then some ([], t)
      else
        match bashMember (c :: t) with
        | none => none
        | some (lo, t1) =>
          match t1 with
          | '-' :: ']' :: _ =>
            match bashClassParse fuel t1 false with
            | none => none
            | some (rs, rest) => some ((lo, lo) :: rs, rest)
          | '-' :: t2 =>
            match bashMember t2 with
            | none => none
            | some (hi, t3) =>
              match bashClassParse fuel t3 false with
              | none => none
              | some (rs, rest) => some ((lo, hi) :: rs, rest)
          | _ =>
            match bashClassParse fuel t1 false with
            | none => none
            | some (rs, rest) => some ((lo, lo) :: rs, rest)

/-- Parse a full bash bracket expression body (the part after `[`):
optional `!`/`^` negation, then the members. -/
def bashClassStart (p2 : List Char) : Option (Bool × (List (Char × Char) × List Char)) :=
  let negBody : Bool × List Char :=
    match p2 with
    | '!' :: t => (true, t)
    | '^' :: t => (true, t)
    | _ => (false, p2)
  match bashClassParse (negBody.2.length + 1) negBody.2 true with
  | none => none
  | some (rs, rest) => some (negBody.1, (rs, rest))

/-- Does character d fall in the (possibly negated) set of ranges? -/
def bashMatchClass (neg : Bool) (ranges : List (Char × Char)) (d : Char) : Bool :=
  let m := ranges.any (fun lohi => lohi.1 ≤ d && d ≤ lohi.2)
  if neg then !m else m

/-- Bash pattern matching as used by `case "$cmd" in $pattern)`: `*` matches
any string (separators included, unlike Go's filepath.Match), `?` any single
character, bracket expressions, backslash escapes.  Fuel: every step consumes
a pattern or subject character, so `p.length + s.length + 1` suffices. -/
def bashGlobF : Nat → List Char → List Char → Bool
  | 0, _, _ => false
  | fuel + 1, p, s =>
    match p with
    | [] => s.isEmpty
    | '*' :: p2 =>
      bashGlobF fuel p2 s ||
        (match s with
         | [] => false
         | _ :: s2 => bashGlobF fuel ('*' :: p2) s2)
    | '?' :: p2 =>
      (match s with
       | [] => false
       | _ :: s2 => bashGlobF fuel p2 s2)
    | '[' :: p2 =>
      (match bashClassStart p2 with
       | some (neg, (ranges, prest)) =>
         (match s with
          | [] => false
          | d :: s2 => bashMatchClass neg ranges d && bashGlobF fuel prest s2)
       | none =>
         (match s with
          | [] => false
          | d :: s2 => ('[' == d) && bashGlobF fuel p2 s2))
    | '\\' :: p2 =>
      (match p2 with
       | [] =>
         (match s with
          | [] => false
          | d :: s2 => ('\\' == d) && bashGlobF fuel [] s2)
       | c :: p3 =>
         (match s with
          | [] => false
          | d :: s2 => (c == d) && bashGlobF fuel p3 s2))
    | c :: p2 =>
      (match s with
       | [] => false
       | d :: s2 => (c == d) && bashGlobF fuel p2 s2)

/-- Bash pattern matching with its fuel initialised. -/
def bashGlob (p s : List Char) : Bool :=
  bashGlobF (p.length + s.length + 1) p s

/-- docker/sandbox/claudeshield-shell.sh match_pattern: the space-star branch
(`${pattern% \*}` strips the final two characters under the guard), the
leading-star branch (`${pattern#\*}` strips the first character), exact
equality, then a bash `case` glob. -/
def matchPatternSh (pattern cmd : List Char) : Bool :=
  if (' ' :: '*' :: []).isSuffixOf pattern then
    let pfx := pattern.take (pattern.length - 2)
    cmd == pfx || (pfx ++ [' ']).isPrefixOf cmd
  else if pattern.head? == some '*' then
    pattern.tail.isSuffixOf cmd
  else if cmd == pattern then
    true
  else
    bashGlob pattern cmd

/-- The policy artifact written by the sandbox engine's generatePolicyMount and
mounted at /etc/claudeshield/policy.json: allow rules keep only their pattern,
block rules keep pattern and reason. -/
structure PolicyArtifact where
  allow : List (List Char)
  block : List (List Char × List Char)
deriving DecidableEq, Repr

/-- generatePolicyMount's serialization of the engine's rule set. -/
def serializePolicy (cfg : types.ProjectConfig) : PolicyArtifact :=
  { allow := cfg.Rules.Allow.map (fun r => r.Pattern)
    block := cfg.Rules.Block.map (fun r => (r.Pattern, r.Reason)) }

/-- claudeshield-shell.sh check_policy: true means the command is permitted.
With no policy file, everything is allowed (fail-open); otherwise block rules
are scanned first (first match denies), then allow rules (first match
permits), else deny. -/
def checkPolicy (artifact : Option PolicyArtifact) (cmd : List Char) : Bool :=
  match artifact with
  | none => true
  | some pf =>
    match pf.block.find? (fun br => matchPatternSh br.1 cmd) with
    | some _ => false
    | none =>
      match pf.allow.find? (fun pat => matchPatternSh pat cmd) with
      | some _ => true
      | none => false

end shell

/-- Go error values produced by the verified operations.  Wrapping
constructors mirror fmt.Errorf("...: %w", err) with the identifiers the
message interpolates. -/
inductive GoError where
  | msg (s : List Char)
  | alreadyExists (agent : List Char)
  | resolvingProjectDir (inner : GoError)
  | creatingWorktree (agent : List Char) (inner : GoError)
  | creatingSandbox (agent : List Char) (inner : GoError)
  | agentNotFound (agent : List Char)
  | listingSessions (inner : GoError)
  | stoppingSandbox (inner : GoError)
  | mergingWorktree (inner : GoError)
  | noCheckpoints (sessionId : List Char)
  | checkpointNotFound (cpId : List Char)
  | creatingCheckpoint (inner : GoError)
  | creatingContainerFromCheckpoint (inner : GoError)
  | startingRestoredContainer (inner : GoError)
  | policyBlocked (cmd reason : List Char)
  | creatingExec (inner : GoError)
  | attachingExec (inner : GoError)
  | readingExecOutput (inner : GoError)
deriving DecidableEq, Repr

namespace sandbox

/-- internal/sandbox Engine: the Docker client is implicit in the oracles
passed to each operation; `policy` mirrors the nil-able *policy.Engine and
`auditor` the nil-ness of the *audit.Logger. -/
structure Engine where
  policy : Option policy.Engine
  auditor : Bool
deriving DecidableEq, Repr

/-- Oracle for the Docker calls made by ExecCommand. -/
structure DockerExecEnv where
  execCreate : Except GoError (List Char)
  execAttach : Except GoError Unit
  readAll : Except GoError (List Char)

/-- Observable outcome of ExecCommand: the returned value or error, the audit
entries emitted, and the command submitted to ContainerExecCreate (none when
execution never reaches the container). -/
structure ExecOutcome where
  result : Except GoError (List Char)
  audit : List types.AuditEntry
  execRequested : Option (List (List Char))

/-- strings.Join(cmd, " "). -/
def joinSpace : List (List Char) → List Char
  | [] => []
  | [w] => w
  | w :: rest => w ++ ' ' :: joinSpace rest

/-- internal/sandbox ExecCommand: when a policy engine is attached, evaluate
the joined command first, audit the decision (if an auditor is attached), and
fail without touching the container on a block; otherwise submit the command
to the container and collect its output. -/
def ExecCommand (e : Engine) (session : types.Session) (cmd : List (List Char))
    (env : DockerExecEnv) : ExecOutcome :=
  let commandStr := joinSpace cmd
  let run : List types.AuditEntry → ExecOutcome := fun entries =>
    match env.execCreate with
    | .error err => { result := .error (.creatingExec err), audit := entries,
                      execRequested := some cmd }
    | .ok _execId =>
      match env.execAttach with
      | .error err => { result := .error (.attachingExec err), audit := entries,
                        execRequested := some cmd }
      | .ok _ =>
        match env.readAll with
        | .error err => { result := .error (.readingExecOutput err), audit := entries,
                          execRequested := some cmd }
        | .ok output => { result := .ok output, audit := entries, execRequested := some cmd }
  match e.policy with
  | none => run []
  | some pe =>
    let res := pe.EvaluateCommand commandStr
    let entries :=
      if e.auditor then
        [{ SessionID := session.ID, AgentName := session.AgentName,
           EventType := "command_exec".data, Command := commandStr,
           Action := res.Action, Reason := res.Reason,
           RulePattern := match res.Rule with | some r => r.Pattern | none => [] }]
      else []
    if !res.Allowed then
      { result := .error (.policyBlocked commandStr res.Reason), audit := entries,
        execRequested := none }
    else run entries

end sandbox

namespace orchestrator

/-- internal/orchestrator Orchestrator: the live agent-name → session map,
modelled as an association list with map semantics (at most one entry per
key; lookups take the first match). -/
structure Orchestrator where
  sessions : List (List Char × types.Session)
deriving DecidableEq, Repr

/-- Oracle for SpawnAgent's external calls: filepath.Abs, createWorktree and
engine.CreateSession. -/
structure SpawnEnv where
  absDir : Except GoError (List Char)
  worktree : Except GoError (List Char)
  createSession : Except GoError types.Session

/-- Oracle for StopAgent's external calls: engine.ListSessions,
engine.StopSession and mergeWorktree (removeWorktree is best-effort and its
result is discarded by the source). -/
structure StopEnv where
  listSessions : Except GoError (List types.Session)
  stopSession : Except GoError Unit
  mergeResult : Except GoError Unit

/-- internal/orchestrator SpawnAgent: fail on a duplicate live agent name
before any external effect; then resolve the project dir, create the worktree
and the sandbox session (tearing the worktree down on failure), store the
worktree dir in the session and insert it into the map. -/
def SpawnAgent (o : Orchestrator) (agentName : List Char) (env : SpawnEnv) :
    Except GoError (Orchestrator × types.Session) :=
  match o.sessions.lookup agentName with
  | some _ => .error (.alreadyExists agentName)
  | none =>
    match env.absDir with
    | .error e => .error (.resolvingProjectDir e)
    | .ok _abs =>
      match env.worktree with
      | .error e => .error (.creatingWorktree agentName e)
      | .ok worktreeDir =>
        match env.createSession with
        | .error e => .error (.creatingSandbox agentName e)
        | .ok session0 =>
          let session := { session0 with WorktreeDir := worktreeDir }
          .ok ({ sessions := (agentName, session) :: o.sessions }, session)

/-- internal/orchestrator StopAgent: resolve the session from the live map,
falling back to the engine's container listing; stop the sandbox; merge the
worktree when requested (a merge failure returns before the map entry is
deleted); then delete the map entry. -/
def StopAgent (o : Orchestrator) (agentName : List Char) (merge : Bool) (env : StopEnv) :
    Except GoError Orchestrator :=
  let found : Except GoError types.Session :=
    match o.sessions.lookup agentName with
    | some s => .ok s
    | none =>
      match env.listSessions with
      | .error e => .error (.listingSessions e)
      | .ok ss =>
        match ss.find? (fun s => s.AgentName == agentName) with
        | some s => .ok s
        | none => .error (.agentNotFound agentName)
  match found with
  | .error e => .error e
  | .ok session =>
    match env.stopSession with
    | .error e => .error (.stoppingSandbox e)
    | .ok _ =>
      let finish : Except GoError Orchestrator :=
        .ok { sessions := o.sessions.filter (fun kv => !(kv.1 == agentName)) }
      if merge ∧ session.WorktreeDir ≠ [] then
        match env.mergeResult with
        | .error e => .error (.mergingWorktree e)
        | .ok _ => finish
      else finish

end orchestrator

namespace rollback

/-- internal/rollback Manager: the per-session ordered checkpoint index
(association list with map semantics) and the durable storage path (its I/O is
best-effort and not read by the verified operations). -/
structure Manager where
  checkpoints : List (List Char × List types.Checkpoint)
  storagePath : List Char
deriving DecidableEq, Repr

/-- Oracle for Rollback's Docker calls: ContainerCreate (as a function of the
image used, so theorems can observe which checkpoint's image is restored) and
ContainerStart.  ContainerStop/ContainerRemove of the old container are
best-effort and their results are discarded by the source. -/
structure RollbackEnv where
  createContainer : List Char → Except GoError (List Char)
  startContainer : Except GoError Unit

/-- internal/rollback Rollback: look up the session's checkpoint list, find
the checkpoint by id (first match), stop/remove the old container
(best-effort), start a new container from the checkpoint's image and update
the session's container reference in place.  The checkpoint index is not
touched. -/
def Rollback (m : Manager) (session : types.Session) (checkpointID : List Char)
    (env : RollbackEnv) : Except GoError (Manager × types.Session) :=
  match m.checkpoints.lookup session.ID with
  | none => .error (.noCheckpoints session.ID)
  | some checkpoints =>
    match checkpoints.find? (fun cp => cp.ID == checkpointID) with
    | none => .error (.checkpointNotFound checkpointID)
    | some target =>
      match env.createContainer target.ImageID with
      | .error e => .error (.creatingContainerFromCheckpoint e)
      | .ok newId =>
        match env.startContainer with
        | .error e => .error (.startingRestoredContainer e)
        | .ok _ => .ok (m, { session with ContainerID := newId })

/-- internal/rollback RollbackToLatest: fail when the session has no
checkpoints, else roll back to the id of the last checkpoint in the ordered
list. -/
def RollbackToLatest (m : Manager) (session : types.Session) (env : RollbackEnv) :
    Except GoError (Manager × types.Session) :=
  match m.checkpoints.lookup session.ID with
  | none => .error (.noCheckpoints session.ID)
  | some checkpoints =>
    if h : checkpoints = [] then .error (.noCheckpoints session.ID)
    else Rollback m session (checkpoints.getLast h).ID env

end rollback

section ClaimTheorems

open types

/-- Sample rule set from the spec's block-precedence example: allow `rm *`,
block `rm -rf /`. -/
def sampleRmRules : types.RulesConfig :=
  { Allow := [{ Pattern := "rm *".data, Action := .allow, Reason := [] }]
    Block := [{ Pattern := "rm -rf /".data, Action := .block,
                Reason := "Root filesystem deletion blocked".data }] }

/-- C1: for every rule set and every command, if any block rule's pattern
matches the whitespace-trimmed command, EvaluateCommand returns a blocked
result — built from the first matching block rule in list order, with that
rule's reason — regardless of whether any allow rule also matches. -/
theorem C1_block_precedence (e : policy.Engine) (command : List Char)
    (r0 : types.Rule) (hmem : r0 ∈ e.config.Rules.Block)
    (hmatch : policy.matchPattern r0.Pattern (policy.goTrimSpace command) = true) :
    (e.EvaluateCommand command).Allowed = false ∧
    (e.EvaluateCommand command).Action = types.PolicyAction.block ∧
    ∃ r, e.config.Rules.Block.find?
          (fun rule => policy.matchPattern rule.Pattern (policy.goTrimSpace command)) = some r ∧
        e.EvaluateCommand command =
          { Allowed := false, Action := types.PolicyAction.block,
            Rule := some r, Reason := r.Reason } := by
  have hsome : (e.config.Rules.Block.find?
      (fun rule => policy.matchPattern rule.Pattern (policy.goTrimSpace command))).isSome := by
    rw [List.find?_isSome]
    exact ⟨r0, hmem, hmatch⟩
  obtain ⟨r, hr⟩ := Option.isSome_iff_exists.mp hsome
  refine ⟨?_, ?_, r, hr, ?_⟩ <;>
    simp [policy.Engine.EvaluateCommand, hr]

/-- C1, instantiated: with allow = [`rm *`] and block = [`rm -rf /`], the
command `rm -rf /` is blocked even though the allow rule matches it. -/
theorem C1_block_precedence_witness :
    ((policy.New { Rules := sampleRmRules }).EvaluateCommand "rm -rf /".data).Allowed = false :=
  (C1_block_precedence (policy.New { Rules := sampleRmRules }) "rm -rf /".data
    { Pattern := "rm -rf /".data, Action := .block,
      Reason := "Root filesystem deletion blocked".data }
    (by simp [sampleRmRules, policy.New]) (by decide)).1

/-- C4: a command matched by no block rule and no allow rule is blocked with
reason "Command not in allowlist" (default-deny / fail-secure). -/
theorem C4_default_deny (e : policy.Engine) (command : List Char)
    (h : ∀ r ∈ e.config.Rules.Block ++ e.config.Rules.Allow,
      policy.matchPattern r.Pattern (policy.goTrimSpace command) = false) :
    e.EvaluateCommand command =
      { Allowed := false, Action := types.PolicyAction.block, Rule := none,
        Reason := "Command not in allowlist".data } := by
  have hb : e.config.Rules.Block.find?
      (fun rule => policy.matchPattern rule.Pattern (policy.goTrimSpace command)) = none := by
    rw [List.find?_eq_none]
    intro x hx
    simp [h x (List.mem_append_left _ hx)]
  have ha : e.config.Rules.Allow.find?
      (fun rule => policy.matchPattern rule.Pattern (policy.goTrimSpace command)) = none := by
    rw [List.find?_eq_none]
    intro x hx
    simp [h x (List.mem_append_right _ hx)]
  simp [policy.Engine.EvaluateCommand, hb, ha]

/-- C4, instantiated: `some-unknown-tool --flag` matches neither list of the
sample rule set and is denied with the default reason. -/
theorem C4_default_deny_witness :
    (policy.New { Rules := sampleRmRules }).EvaluateCommand "some-unknown-tool --flag".data =
      { Allowed := false, Action := types.PolicyAction.block, Rule := none,
        Reason := "Command not in allowlist".data } :=
  C4_default_deny (policy.New { Rules := sampleRmRules }) "some-unknown-tool --flag".data
    (by decide)


/-- A rule set whose single block rule has an absent (empty) reason field. -/
def emptyReasonRules : types.RulesConfig :=
  { Allow := []
    Block := [{ Pattern := "x".data, Action := .block, Reason := [] }] }

/-- C5, counterexample: a block rule whose optional reason field is absent
(the empty string) yields a blocked result whose reason is empty, so a blocked
PolicyResult does not always carry a non-empty reason. -/
theorem C5_empty_reason_counterexample :
    ((policy.New { Rules := emptyReasonRules }).EvaluateCommand "x".data).Allowed = false ∧
    ((policy.New { Rules := emptyReasonRules }).EvaluateCommand "x".data).Reason = [] := by
  decide

/-- C5, amended: blocked results of EvaluateFileAccess and default-deny
blocked results of EvaluateCommand always carry a non-empty reason; a result
blocked by a block rule carries that rule's reason verbatim, so every blocked
result has a non-empty reason provided every block rule's reason field is
non-empty. -/
theorem C5_blocked_reason_nonempty (e : policy.Engine) (command path : List Char)
    (hrules : ∀ r ∈ e.config.Rules.Block, r.Reason ≠ []) :
    ((e.EvaluateCommand command).Allowed = false → (e.EvaluateCommand command).Reason ≠ []) ∧
    ((policy.EvaluateFileAccess path).Allowed = false →
      (policy.EvaluateFileAccess path).Reason ≠ []) := by
  constructor
  · cases hb : e.config.Rules.Block.find?
        (fun rule => policy.matchPattern rule.Pattern (policy.goTrimSpace command)) with
    | some r =>
      intro _
      have hr := hrules r (List.mem_of_find?_eq_some hb)
      simp [policy.Engine.EvaluateCommand, hb, hr]
    | none =>
      cases ha : e.config.Rules.Allow.find?
          (fun rule => policy.matchPattern rule.Pattern (policy.goTrimSpace command)) with
      | some r =>
        intro hcontra
        simp [policy.Engine.EvaluateCommand, hb, ha] at hcontra
      | none =>
        intro _
        simp [policy.Engine.EvaluateCommand, hb, ha]
  · by_cases h1 : (policy.sensitiveFiles.any fun name => policy.goBase path == name) = true
    · intro _; simp [policy.EvaluateFileAccess, h1]
    · by_cases h2 : (".env.".data.isPrefixOf (policy.goBase path)) = true
      · intro _; simp [policy.EvaluateFileAccess, h1, h2]
      · by_cases h3 : (policy.sensitiveParents.any fun sd =>
            policy.goBase (policy.goDir path) == sd ||
              policy.goContains path ('/' :: (sd ++ ['/']))) = true
        · intro _; simp [policy.EvaluateFileAccess, h1, h2, h3]
        · by_cases h4 : (policy.goBase path == "config.json".data &&
              policy.goContains path ".docker".data) = true
          · intro _; simp [policy.EvaluateFileAccess, h1, h2, h3, h4]
          · by_cases h5 : ("/workspace".data.isPrefixOf path) = true
            · intro hcontra
              simp [policy.EvaluateFileAccess, h1, h2, h3, h4, h5] at hcontra
            · intro _; simp [policy.EvaluateFileAccess, h1, h2, h3, h4, h5]

/-- C5, amended, instantiated at the sample rule set (whose block reason is
non-empty), an unknown command and a path outside the workspace. -/
theorem C5_blocked_reason_nonempty_witness :
    (((policy.New { Rules := sampleRmRules }).EvaluateCommand "zzz".data).Reason ≠ []) ∧
    ((policy.EvaluateFileAccess "/etc/passwd".data).Reason ≠ []) :=
  ⟨(C5_blocked_reason_nonempty (policy.New { Rules := sampleRmRules }) "zzz".data
      "/etc/passwd".data (by decide)).1 (by decide),
   (C5_blocked_reason_nonempty (policy.New { Rules := sampleRmRules }) "zzz".data
      "/etc/passwd".data (by decide)).2 (by decide)⟩

/-- goContains decides the substring (infix) relation. -/
theorem goContains_iff (s sub : List Char) : policy.goContains s sub = true ↔ sub <:+: s := by
  induction s with
  | nil => simp [policy.goContains, List.isPrefixOf_iff_prefix]
  | cons a t ih => simp [policy.goContains, List.isPrefixOf_iff_prefix, List.infix_cons_iff, ih]

/-- C3: every path whose basename is a sensitive name, or whose basename
starts with ".env.", or that lies under a .ssh/, .aws/ or .gnupg/ directory
(a decomposition `pre ++ sd ++ "/" ++ suf` where pre is empty or ends in a
separator) is blocked by EvaluateFileAccess — including paths nested under the
workspace root. -/
theorem C3_sensitive_paths_blocked (path : List Char)
    (h : policy.goBase path ∈ policy.sensitiveFiles ∨
         (".env.".data).isPrefixOf (policy.goBase path) = true ∨
         ∃ sd ∈ policy.sensitiveParents, ∃ pre suf,
           path = pre ++ sd ++ '/' :: suf ∧ (pre = [] ∨ ∃ pre2, pre = pre2 ++ ['/'])) :
    (policy.EvaluateFileAccess path).Allowed = false ∧
    (policy.EvaluateFileAccess path).Action = types.PolicyAction.block := by
  by_cases h1 : (policy.sensitiveFiles.any fun name => policy.goBase path == name) = true
  · simp [policy.EvaluateFileAccess, h1]
  · by_cases h2 : (".env.".data.isPrefixOf (policy.goBase path)) = true
    · simp [policy.EvaluateFileAccess, h1, h2]
    · by_cases h3 : (policy.sensitiveParents.any fun sd =>
          policy.goBase (policy.goDir path) == sd ||
            policy.goContains path ('/' :: (sd ++ ['/']))) = true
      · simp [policy.EvaluateFileAccess, h1, h2, h3]
      · by_cases h4 : (policy.goBase path == "config.json".data &&
            policy.goContains path ".docker".data) = true
        · simp [policy.EvaluateFileAccess, h1, h2, h3, h4]
        · by_cases h5 : ("/workspace".data.isPrefixOf path) = true
          · exfalso
            rcases h with hbase | henv | ⟨sd, hsdmem, pre, suf, hpath, hpre⟩
            · exact h1 (List.any_eq_true.mpr ⟨_, hbase, beq_self_eq_true _⟩)
            · exact h2 henv
            · rcases hpre with rfl | ⟨pre2, rfl⟩
              · simp only [List.nil_append] at hpath
                rw [List.isPrefixOf_iff_prefix] at h5
                obtain ⟨t, ht⟩ := h5
                have hsdhead : sd.head? = some '.' := by
                  have : sd = ".ssh".data ∨ sd = ".aws".data ∨ sd = ".gnupg".data := by
                    simpa [policy.sensitiveParents] using hsdmem
                  rcases this with rfl | rfl | rfl <;> rfl
                have hslash : path.head? = some '/' := by rw [← ht]; rfl
                have hdot : path.head? = some '.' := by
                  rw [hpath, List.head?_append]
                  simp [hsdhead]
                rw [hslash] at hdot
                exact absurd hdot (by decide)
              · apply h3
                refine List.any_eq_true.mpr ⟨sd, hsdmem, ?_⟩
                have hct : policy.goContains path ('/' :: (sd ++ ['/'])) = true := by
                  rw [goContains_iff]
                  refine ⟨pre2, suf, ?_⟩
                  rw [hpath]
                  simp
                simp [hct]
          · simp [policy.EvaluateFileAccess, h1, h2, h3, h4, h5]

/-- C3, instantiated: /workspace/sub/.env is blocked even though it is nested
under the workspace root. -/
theorem C3_sensitive_paths_blocked_witness :
    (policy.EvaluateFileAccess "/workspace/sub/.env".data).Allowed = false :=
  (C3_sensitive_paths_blocked "/workspace/sub/.env".data (Or.inl (by decide))).1

/-- Deleting a key from the orchestrator map leaves no entry for that key. -/
theorem lookup_filter_erased (l : List (List Char × types.Session)) (k : List Char) :
    (l.filter (fun kv => !(kv.1 == k))).lookup k = none := by
  induction l with
  | nil => rfl
  | cons a t ih =>
    by_cases hk : a.1 = k
    · simp [List.filter_cons, hk, ih]
    · have hka : (k == a.1) = false := beq_eq_false_iff_ne.mpr fun hh => hk hh.symm
      simp [List.filter_cons, List.lookup, hk, hka, ih]

/-- C6: spawning an agent whose name already has a live map entry fails
immediately with an "already exists" error (the map only changes on a
successful spawn, which returns the updated orchestrator); after a successful
StopAgent with merge = false the entry is gone, so a subsequent SpawnAgent of
the same name can no longer fail with that error. -/
theorem C6_spawn_duplicate_stop_frees :
    (∀ (o : orchestrator.Orchestrator) (name : List Char) (s : types.Session)
        (env : orchestrator.SpawnEnv),
      o.sessions.lookup name = some s →
      orchestrator.SpawnAgent o name env = .error (.alreadyExists name)) ∧
    (∀ (o o2 : orchestrator.Orchestrator) (name : List Char) (envS : orchestrator.StopEnv),
      orchestrator.StopAgent o name false envS = .ok o2 →
      o2.sessions.lookup name = none ∧
      ∀ env2 : orchestrator.SpawnEnv,
        orchestrator.SpawnAgent o2 name env2 ≠ .error (.alreadyExists name)) := by
  constructor
  · intro o name s env hlk
    simp [orchestrator.SpawnAgent, hlk]
  · intro o o2 name envS h
    simp only [orchestrator.StopAgent] at h
    have ho2 : o2 = { sessions := o.sessions.filter (fun kv => !(kv.1 == name)) } := by
      split at h
      · exact absurd h (by simp)
      · split at h
        · exact absurd h (by simp)
        · simp at h
          exact h.symm
    subst ho2
    have hnone := lookup_filter_erased o.sessions name
    refine ⟨hnone, ?_⟩
    intro env2
    simp only [orchestrator.SpawnAgent, hnone]
    cases henv : env2.absDir with
    | error e => simp
    | ok a =>
      cases hw : env2.worktree with
      | error e => simp
      | ok w =>
        cases hc : env2.createSession with
        | error e => simp
        | ok s => simp

/-- A sample session for agent "x". -/
def sessX : types.Session :=
  { ID := "cs-x-1".data, ProjectDir := "/p".data, ContainerID := "c1".data,
    State := .running, AgentName := "x".data, WorktreeDir := "/p/wt".data }

/-- A stop oracle whose engine calls all succeed. -/
def okStopEnv : orchestrator.StopEnv :=
  { listSessions := .ok [], stopSession := .ok (), mergeResult := .ok () }

/-- A spawn oracle whose external calls all succeed. -/
def okSpawnEnv : orchestrator.SpawnEnv :=
  { absDir := .ok "/p".data, worktree := .ok "/p/wt".data, createSession := .ok sessX }

/-- C6, instantiated: with agent "x" live, a second spawn of "x" fails with
the "already exists" error; after StopAgent("x", merge = false) the entry is
gone and a further spawn does not fail with that error. -/
theorem C6_spawn_duplicate_stop_frees_witness :
    orchestrator.SpawnAgent { sessions := [("x".data, sessX)] } "x".data okSpawnEnv =
      .error (.alreadyExists "x".data) ∧
    (orchestrator.Orchestrator.mk []).sessions.lookup "x".data = none ∧
    orchestrator.SpawnAgent { sessions := [] } "x".data okSpawnEnv ≠
      .error (.alreadyExists "x".data) := by
  have hstop : orchestrator.StopAgent { sessions := [("x".data, sessX)] } "x".data false
      okStopEnv = .ok { sessions := [] } := rfl
  have h2 := C6_spawn_duplicate_stop_frees.2 { sessions := [("x".data, sessX)] }
    { sessions := [] } "x".data okStopEnv hstop
  exact ⟨C6_spawn_duplicate_stop_frees.1 { sessions := [("x".data, sessX)] } "x".data sessX
      okSpawnEnv rfl, h2.1, h2.2 okSpawnEnv⟩

/-- C7: a successful rollback leaves the manager's checkpoint index — in
particular the session's full checkpoint list — unchanged, and updates the
session's container reference to the id of the container created from the
target checkpoint's image (a changed reference whenever Docker hands back a
fresh id). -/
theorem C7_rollback_nondestructive (m m2 : rollback.Manager) (session s2 : types.Session)
    (cpId : List Char) (env : rollback.RollbackEnv)
    (h : rollback.Rollback m session cpId env = .ok (m2, s2)) :
    m2.checkpoints = m.checkpoints ∧
    ∃ cps target newId,
      m.checkpoints.lookup session.ID = some cps ∧
      cps.find? (fun cp => cp.ID == cpId) = some target ∧
      env.createContainer target.ImageID = .ok newId ∧
      s2.ContainerID = newId ∧
      (newId ≠ session.ContainerID → s2.ContainerID ≠ session.ContainerID) := by
  unfold rollback.Rollback at h
  split at h
  · exact absurd h (by simp)
  case _ cps hlk =>
    split at h
    · exact absurd h (by simp)
    case _ target hfind =>
      split at h
      · exact absurd h (by simp)
      case _ newId hcreate =>
        split at h
        · exact absurd h (by simp)
        case _ hstart =>
          simp only [Except.ok.injEq, Prod.mk.injEq] at h
          obtain ⟨rfl, rfl⟩ := h
          exact ⟨rfl, cps, target, newId, hlk, hfind, hcreate, rfl, fun hne => hne⟩

/-- Two sample checkpoints of session s1. -/
def cpA : types.Checkpoint :=
  { ID := "cp-a".data, SessionID := "s1".data, ImageID := "img-a".data, Description := [] }

/-- Second sample checkpoint. -/
def cpB : types.Checkpoint :=
  { ID := "cp-b".data, SessionID := "s1".data, ImageID := "img-b".data, Description := [] }

/-- Third sample checkpoint. -/
def cpC : types.Checkpoint :=
  { ID := "cp-c".data, SessionID := "s1".data, ImageID := "img-c".data, Description := [] }

/-- A sample manager holding three checkpoints for session s1. -/
def mgrS1 : rollback.Manager :=
  { checkpoints := [("s1".data, [cpA, cpB, cpC])], storagePath := [] }

/-- The sample session attached to s1's container. -/
def sessS1 : types.Session :=
  { ID := "s1".data, ProjectDir := "/p".data, ContainerID := "c-old".data,
    State := .running, AgentName := "a".data, WorktreeDir := [] }

/-- A rollback oracle: container creation always yields the fresh id c-new. -/
def okRbEnv : rollback.RollbackEnv :=
  { createContainer := fun _ => .ok "c-new".data, startContainer := .ok () }

/-- C7, instantiated: rolling sessS1 back to cp-a succeeds, changes the
container reference and leaves all three stored checkpoints in place. -/
theorem C7_rollback_nondestructive_witness :
    ({ sessS1 with ContainerID := "c-new".data } : types.Session).ContainerID ≠
      sessS1.ContainerID ∧
    mgrS1.checkpoints = mgrS1.checkpoints := by
  have h := C7_rollback_nondestructive mgrS1 mgrS1 sessS1
    { sessS1 with ContainerID := "c-new".data } "cp-a".data okRbEnv rfl
  exact ⟨by decide, h.1⟩

/-- In a list of checkpoints with pairwise distinct ids, searching for the
last element's id finds the last element. -/
theorem find_last_of_nodup (cps : List types.Checkpoint) (hne : cps ≠ [])
    (hnd : (cps.map (fun cp => cp.ID)).Nodup) :
    cps.find? (fun cp => cp.ID == (cps.getLast hne).ID) = some (cps.getLast hne) := by
  induction cps with
  | nil => exact absurd rfl hne
  | cons a t ih =>
    cases t with
    | nil => simp [List.getLast]
    | cons b t2 =>
      have hne2 : b :: t2 ≠ [] := by simp
      have hlast : (a :: b :: t2).getLast hne = (b :: t2).getLast hne2 :=
        List.getLast_cons hne2
      have hmem : (b :: t2).getLast hne2 ∈ b :: t2 := List.getLast_mem hne2
      have hid : a.ID ≠ ((b :: t2).getLast hne2).ID := by
        intro hcontra
        have : a.ID ∈ (b :: t2).map (fun cp => cp.ID) :=
          hcontra ▸ List.mem_map_of_mem (fun cp => cp.ID) hmem
        exact (List.nodup_cons.mp hnd).1 this
      have hneg : ¬(a.ID == ((a :: b :: t2).getLast hne).ID) = true := by
        rw [hlast]
        simp [hid]
      rw [hlast, List.find?_cons_of_neg _ (hlast ▸ hneg)]
      exact ih hne2 (List.nodup_cons.mp hnd).2

/-- C8: on a session whose checkpoint list is missing or empty,
RollbackToLatest fails with an error naming the session; on a non-empty list
it rolls back to the id of the last checkpoint, and (when checkpoint ids are
pairwise distinct, as time-derived ids are) the checkpoint Rollback resolves
for that id is the last element itself. -/
theorem C8_rollback_to_latest (m : rollback.Manager) (session : types.Session)
    (env : rollback.RollbackEnv) :
    (m.checkpoints.lookup session.ID = none →
      rollback.RollbackToLatest m session env = .error (.noCheckpoints session.ID)) ∧
    (m.checkpoints.lookup session.ID = some [] →
      rollback.RollbackToLatest m session env = .error (.noCheckpoints session.ID)) ∧
    ∀ cps, m.checkpoints.lookup session.ID = some cps → ∀ hne : cps ≠ [],
      rollback.RollbackToLatest m session env =
        rollback.Rollback m session (cps.getLast hne).ID env ∧
      ((cps.map (fun cp => cp.ID)).Nodup →
        cps.find? (fun cp => cp.ID == (cps.getLast hne).ID) = some (cps.getLast hne)) := by
  refine ⟨?_, ?_, ?_⟩
  · intro hlk
    simp [rollback.RollbackToLatest, hlk]
  · intro hlk
    simp [rollback.RollbackToLatest, hlk]
  · intro cps hlk hne
    constructor
    · simp [rollback.RollbackToLatest, hlk, hne]
    · exact fun hnd => find_last_of_nodup cps hne hnd

/-- C8, instantiated: with checkpoints [cp-a, cp-b, cp-c], RollbackToLatest
equals Rollback at id cp-c, which resolves to cp-c itself; a session with no
checkpoints fails with an error naming it. -/
theorem C8_rollback_to_latest_witness :
    rollback.RollbackToLatest mgrS1 sessS1 okRbEnv =
      rollback.Rollback mgrS1 sessS1 "cp-c".data okRbEnv ∧
    [cpA, cpB, cpC].find? (fun cp => cp.ID == "cp-c".data) = some cpC ∧
    rollback.RollbackToLatest mgrS1 { sessS1 with ID := "s2".data } okRbEnv =
      .error (.noCheckpoints "s2".data) := by
  have h := (C8_rollback_to_latest mgrS1 sessS1 okRbEnv).2.2 [cpA, cpB, cpC] rfl (by simp)
  have h0 := (C8_rollback_to_latest mgrS1 { sessS1 with ID := "s2".data } okRbEnv).1 rfl
  exact ⟨h.1, h.2 (by decide), h0⟩

/-- C10: when the sandbox engine has no policy engine attached, ExecCommand
performs no policy evaluation and emits no audit entry — the command is passed
straight to the container (ContainerExecCreate is reached with the unmodified
command vector), whatever the Docker calls then return. -/
theorem C10_exec_without_policy (e : sandbox.Engine) (session : types.Session)
    (cmd : List (List Char)) (env : sandbox.DockerExecEnv)
    (hp : e.policy = none) :
    (sandbox.ExecCommand e session cmd env).audit = [] ∧
    (sandbox.ExecCommand e session cmd env).execRequested = some cmd := by
  simp only [sandbox.ExecCommand, hp]
  cases h1 : env.execCreate with
  | error err => simp [h1]
  | ok v =>
    cases h2 : env.execAttach with
    | error err => simp [h1, h2]
    | ok u =>
      cases h3 : env.readAll with
      | error err => simp [h1, h2, h3]
      | ok out => simp [h1, h2, h3]

/-- A Docker exec oracle whose calls all succeed. -/
def okExecEnv : sandbox.DockerExecEnv :=
  { execCreate := .ok "exec-1".data, execAttach := .ok (), readAll := .ok "out".data }

/-- C10, instantiated: an engine with nil policy (and an attached auditor)
passes even `rm -rf /` straight to the container with no audit entry. -/
theorem C10_exec_without_policy_witness :
    (sandbox.ExecCommand { policy := none, auditor := true } sessX
      ["rm".data, "-rf".data, "/".data] okExecEnv).audit = [] ∧
    (sandbox.ExecCommand { policy := none, auditor := true } sessX
      ["rm".data, "-rf".data, "/".data] okExecEnv).execRequested =
      some ["rm".data, "-rf".data, "/".data] :=
  C10_exec_without_policy { policy := none, auditor := true } sessX
    ["rm".data, "-rf".data, "/".data] okExecEnv rfl

/-- find? over a mapped list succeeds exactly when find? over the original
list does, whenever the predicates agree pointwise on the list. -/
theorem find_isSome_congr {α β : Type} (l : List α) (g : α → β) (p : β → Bool) (q : α → Bool)
    (h : ∀ a ∈ l, p (g a) = q a) :
    ((l.map g).find? p).isSome = (l.find? q).isSome := by
  induction l with
  | nil => rfl
  | cons a t ih =>
    have ha := h a (List.mem_cons_self a t)
    by_cases hq : q a = true
    · have hp : p (g a) = true := ha ▸ hq
      simp [List.find?_cons_of_pos, hq, hp]
    · have hp : ¬p (g a) = true := by rw [ha]; exact hq
      rw [List.map_cons, List.find?_cons_of_neg _ hp, List.find?_cons_of_neg _ hq]
      exact ih fun x hx => h x (List.mem_cons_of_mem a hx)

/-- A rule set whose single allow pattern a*b is decided by the glob
fallback. -/
def slashRules : types.RulesConfig :=
  { Allow := [{ Pattern := "a*b".data, Action := .allow, Reason := [] }], Block := [] }

/-- C2, counterexample: on the artifact serialized from a rule set allowing
pattern a*b, the in-container shell permits the command a/b (bash `*` crosses
the path separator) while the host engine blocks it (Go's filepath.Match `*`
does not) — the two enforcement layers are not behaviorally identical. -/
theorem C2_shell_host_divergence_counterexample :
    shell.checkPolicy (some (shell.serializePolicy { Rules := slashRules })) "a/b".data = true ∧
    ((policy.New { Rules := slashRules }).EvaluateCommand "a/b".data).Allowed = false := by
  decide

/-- C2, amended: the shell and the host engine implement the same deny-first,
default-deny scan over the same serialized rule list; for every command equal
to its whitespace-trimmed form on which the two pattern matchers agree
rule-by-rule, the shell permits the command iff the host engine allows it
(they can disagree only through surrounding whitespace or through rules whose
match is decided by the glob fallback, where bash and Go globbing differ). -/
theorem C2_shell_host_agreement (cfg : types.ProjectConfig) (cmd : List Char)
    (htrim : policy.goTrimSpace cmd = cmd)
    (hagree : ∀ r ∈ cfg.Rules.Block ++ cfg.Rules.Allow,
      shell.matchPatternSh r.Pattern cmd = policy.matchPattern r.Pattern cmd) :
    shell.checkPolicy (some (shell.serializePolicy cfg)) cmd =
      ((policy.New cfg).EvaluateCommand cmd).Allowed := by
  have hblock : ((cfg.Rules.Block.map (fun r => (r.Pattern, r.Reason))).find?
        (fun br => shell.matchPatternSh br.1 cmd)).isSome =
      (cfg.Rules.Block.find? (fun r => policy.matchPattern r.Pattern cmd)).isSome :=
    find_isSome_congr _ _ _ _
      (fun r hr => hagree r (List.mem_append_left _ hr))
  have hallow : ((cfg.Rules.Allow.map (fun r => r.Pattern)).find?
        (fun pat => shell.matchPatternSh pat cmd)).isSome =
      (cfg.Rules.Allow.find? (fun r => policy.matchPattern r.Pattern cmd)).isSome :=
    find_isSome_congr _ _ _ _
      (fun r hr => hagree r (List.mem_append_right _ hr))
  cases hb : cfg.Rules.Block.find? (fun r => policy.matchPattern r.Pattern cmd) with
  | some r =>
    have : ((cfg.Rules.Block.map (fun r => (r.Pattern, r.Reason))).find?
        (fun br => shell.matchPatternSh br.1 cmd)).isSome = true := by
      rw [hblock, hb]; rfl
    obtain ⟨br, hbr⟩ := Option.isSome_iff_exists.mp this
    simp [shell.checkPolicy, shell.serializePolicy, hbr,
      policy.Engine.EvaluateCommand, policy.New, htrim, hb]
  | none =>
    have hbn : ((cfg.Rules.Block.map (fun r => (r.Pattern, r.Reason))).find?
        (fun br => shell.matchPatternSh br.1 cmd)) = none := by
      have h2 := hblock.trans (by rw [hb])
      cases hxx : (cfg.Rules.Block.map (fun r => (r.Pattern, r.Reason))).find?
          (fun br => shell.matchPatternSh br.1 cmd) with
      | none => rfl
      | some v => rw [hxx] at h2; simp at h2
    cases ha : cfg.Rules.Allow.find? (fun r => policy.matchPattern r.Pattern cmd) with
    | some r =>
      have : ((cfg.Rules.Allow.map (fun r => r.Pattern)).find?
          (fun pat => shell.matchPatternSh pat cmd)).isSome = true := by
        rw [hallow, ha]; rfl
      obtain ⟨pat, hpat⟩ := Option.isSome_iff_exists.mp this
      simp [shell.checkPolicy, shell.serializePolicy, hbn, hpat,
        policy.Engine.EvaluateCommand, policy.New, htrim, hb, ha]
    | none =>
      have han : ((cfg.Rules.Allow.map (fun r => r.Pattern)).find?
          (fun pat => shell.matchPatternSh pat cmd)) = none := by
        have h2 := hallow.trans (by rw [ha])
        cases hxx : (cfg.Rules.Allow.map (fun r => r.Pattern)).find?
            (fun pat => shell.matchPatternSh pat cmd) with
        | none => rfl
        | some v => rw [hxx] at h2; simp at h2
      simp [shell.checkPolicy, shell.serializePolicy, hbn, han,
        policy.Engine.EvaluateCommand, policy.New, htrim, hb, ha]

/-- A rule set exercising both lists through the explicit space-star branch. -/
def gitSudoRules : types.RulesConfig :=
  { Allow := [{ Pattern := "git *".data, Action := .allow, Reason := [] }]
    Block := [{ Pattern := "sudo *".data, Action := .block,
                Reason := "Privilege escalation not allowed".data }] }

/-- C2, amended, instantiated: on `git status` (trimmed, both matchers agree
on both rules) the shell's decision equals the host engine's. -/
theorem C2_shell_host_agreement_witness :
    shell.checkPolicy (some (shell.serializePolicy { Rules := gitSudoRules }))
      "git status".data =
      ((policy.New { Rules := gitSudoRules }).EvaluateCommand "git status".data).Allowed :=
  C2_shell_host_agreement { Rules := gitSudoRules } "git status".data (by decide) (by decide)

/-- scanBody on a chunk free of backslashes, brackets and stars stops exactly
at the appended top-level star. -/
theorem scanBody_breaks (l r : List Char)
    (hl : ∀ c ∈ l, c ≠ '*' ∧ c ≠ '[' ∧ c ≠ '\\') :
    policy.scanBody false (l ++ '*' :: r) = (l, '*' :: r) := by
  induction l with
  | nil =>
    unfold policy.scanBody
    simp
  | cons a t ih =>
    obtain ⟨ha1, ha2, ha3⟩ := hl a (List.mem_cons_self a t)
    have iht := ih fun c hc => hl c (List.mem_cons_of_mem a hc)
    by_cases ha4 : a = ']'
    · subst ha4
      rw [List.cons_append]
      unfold policy.scanBody
      simp [iht]
    · rw [List.cons_append]
      unfold policy.scanBody
      simp [ha1, ha2, ha3, ha4, iht]

/-- scanChunk on a star-free non-empty chunk followed by a star: no leading
star, the chunk is the literal part, the star heads the rest. -/
theorem scanChunk_breaks (l r : List Char) (hne : l ≠ [])
    (hl : ∀ c ∈ l, c ≠ '*' ∧ c ≠ '[' ∧ c ≠ '\\') :
    policy.scanChunk (l ++ '*' :: r) = (false, l, '*' :: r) := by
  cases l with
  | nil => exact absurd rfl hne
  | cons a t =>
    have ha := (hl a (List.mem_cons_self a t)).1
    have hds : policy.dropStars (a :: (t ++ '*' :: r)) = (false, a :: (t ++ '*' :: r)) := by
      unfold policy.dropStars
      simp [ha]
    have hsb := scanBody_breaks (a :: t) r hl
    simp only [List.cons_append] at hsb
    simp only [policy.scanChunk, List.cons_append, hds, hsb]

/-- In failed mode, matchChunkF on a chunk without brackets or backslashes
scans to the end and reports a failed match. -/
theorem matchChunkF_failed (chunk : List Char) :
    ∀ (s : List Char) (fuel : Nat), chunk.length < fuel →
    (∀ c ∈ chunk, c ≠ '[' ∧ c ≠ '\\') →
    policy.matchChunkF fuel chunk s true = .nomatch := by
  induction chunk with
  | nil =>
    intro s fuel hf _
    cases fuel with
    | zero => omega
    | succ f =>
      unfold policy.matchChunkF
      simp
  | cons c rest ih =>
    intro s fuel hf hl
    obtain ⟨h1, h2⟩ := hl c (List.mem_cons_self c rest)
    cases fuel with
    | zero => simp at hf
    | succ f =>
      have hlen : rest.length < f := by simp at hf; omega
      have iht := fun s2 => ih s2 f hlen (fun x hx => hl x (List.mem_cons_of_mem c hx))
      by_cases hq : c = '?'
      · subst hq
        unfold policy.matchChunkF
        simp [iht]
      · unfold policy.matchChunkF
        simp [h1, h2, hq, iht]

/-- matchChunkF on a chunk free of brackets, question marks and backslashes is
literal matching: it succeeds exactly on names extending the chunk, returning
the remainder. -/
theorem matchChunkF_lit (chunk : List Char) :
    ∀ (s : List Char) (fuel : Nat), chunk.length < fuel →
    (∀ c ∈ chunk, c ≠ '[' ∧ c ≠ '?' ∧ c ≠ '\\') →
    policy.matchChunkF fuel chunk s false =
      (if chunk.isPrefixOf s then .ok (s.drop chunk.length) else .nomatch) := by
  induction chunk with
  | nil =>
    intro s fuel hf _
    cases fuel with
    | zero => omega
    | succ f =>
      unfold policy.matchChunkF
      simp [List.isPrefixOf]
  | cons c rest ih =>
    intro s fuel hf hl
    obtain ⟨h1, h2, h3⟩ := hl c (List.mem_cons_self c rest)
    cases fuel with
    | zero => simp at hf
    | succ f =>
      have hlen : rest.length < f := by simp at hf; omega
      have htail := fun x hx => hl x (List.mem_cons_of_mem c hx)
      have htailf : ∀ x ∈ rest, x ≠ '[' ∧ x ≠ '\\' :=
        fun x hx => ⟨(htail x hx).1, (htail x hx).2.2⟩
      cases s with
      | nil =>
        unfold policy.matchChunkF
        simp [h1, h2, h3, List.isPrefixOf, matchChunkF_failed rest [] f hlen htailf]
      | cons d s2 =>
        by_cases hcd : c = d
        · subst hcd
          unfold policy.matchChunkF
          simp [h1, h2, h3, List.isPrefixOf, ih s2 f hlen htail]
        · have hbne : (c != d) = true := bne_iff_ne.mpr hcd
          unfold policy.matchChunkF
          simp [h1, h2, h3, hcd, hbne, List.isPrefixOf,
            matchChunkF_failed rest s2 f hlen htailf]

/-- filepath.Match on a pattern `pfx ++ " *"` (pfx free of glob
metacharacters) fails on any name of which `pfx ++ " "` is not a literal
prefix: the first chunk is the literal `pfx ++ " "`, it is unstarred, and the
remaining pattern `*` is syntactically valid. -/
theorem goMatch_spaceStar_nomatch (pfx s : List Char)
    (hmf : ∀ c ∈ pfx, c ≠ '*' ∧ c ≠ '?' ∧ c ≠ '[' ∧ c ≠ '\\')
    (hnp : (pfx ++ [' ']).isPrefixOf (pfx ++ s) = false) :
    policy.goFilepathMatch (pfx ++ ' ' :: '*' :: []) (pfx ++ s) = .ok false := by
  have hsc : policy.scanChunk (pfx ++ ' ' :: '*' :: []) = (false, pfx ++ [' '], ['*']) := by
    have heq : pfx ++ ' ' :: '*' :: [] = (pfx ++ [' ']) ++ '*' :: [] := by simp
    rw [heq]
    refine scanChunk_breaks (pfx ++ [' ']) [] (by simp) ?_
    intro c hc
    rcases List.mem_append.mp hc with h | h
    · exact ⟨(hmf c h).1, (hmf c h).2.2.1, (hmf c h).2.2.2⟩
    · simp at h
      subst h
      refine ⟨by decide, by decide, by decide⟩
  have hmc : policy.matchChunk (pfx ++ [' ']) (pfx ++ s) = .nomatch := by
    unfold policy.matchChunk
    rw [matchChunkF_lit (pfx ++ [' ']) (pfx ++ s) ((pfx ++ [' ']).length + 1) (by omega) ?hside]
    case hside =>
      intro c hc
      rcases List.mem_append.mp hc with h | h
      · exact ⟨(hmf c h).2.2.1, (hmf c h).2.1, (hmf c h).2.2.2⟩
      · simp at h
        subst h
        exact ⟨by decide, by decide, by decide⟩
    rw [hnp]
    simp
  cases pfx with
  | nil =>
    simp only [List.nil_append] at hsc hmc ⊢
    unfold policy.goFilepathMatch
    unfold policy.goMatchF
    simp [hsc, hmc]
    decide
  | cons a t =>
    simp only [List.cons_append] at hsc hmc ⊢
    unfold policy.goFilepathMatch
    unfold policy.goMatchF
    simp [hsc, hmc]
    decide

/-- C9, counterexample to the general space-star claim: the pattern `a* *`
ends in space-star with prefix `a*`, and `a*b c` extends that prefix by the
non-space-initial remainder `b c` — yet matchPattern matches it (through the
glob fallback, whose inner `*` absorbs `b`). -/
theorem C9_space_star_counterexample :
    "a*b c".data = "a*".data ++ "b c".data ∧
    "b c".data ≠ [] ∧
    "b c".data.head? ≠ some ' ' ∧
    policy.matchPattern "a* *".data "a*b c".data = true := by
  decide

/-- C9, amended: for a pattern `pfx ++ " *"` whose prefix contains no glob
metacharacter (star, question mark, bracket, backslash), matchPattern matches
the command equal to the prefix and every command `prefix + " " + rest`, and
rejects every command extending the prefix without a space boundary. -/
theorem C9_space_star_semantics (pfx rest s : List Char)
    (hmf : ∀ c ∈ pfx, c ≠ '*' ∧ c ≠ '?' ∧ c ≠ '[' ∧ c ≠ '\\') :
    policy.matchPattern (pfx ++ ' ' :: '*' :: []) pfx = true ∧
    policy.matchPattern (pfx ++ ' ' :: '*' :: []) (pfx ++ ' ' :: rest) = true ∧
    (s ≠ [] → s.head? ≠ some ' ' →
      policy.matchPattern (pfx ++ ' ' :: '*' :: []) (pfx ++ s) = false) := by
  have hsuf : ((' ' :: '*' :: []).isSuffixOf (pfx ++ ' ' :: '*' :: [])) = true := by
    rw [List.isSuffixOf_iff_suffix]
    exact ⟨pfx, rfl⟩
  have hlen : (pfx ++ ' ' :: '*' :: []).length - 2 = pfx.length := by simp
  have htake : (pfx ++ ' ' :: '*' :: []).take ((pfx ++ ' ' :: '*' :: []).length - 2) = pfx := by
    rw [hlen]
    exact List.take_left pfx _
  refine ⟨?_, ?_, ?_⟩
  · simp [policy.matchPattern, hsuf, htake]
  · have hpre : ((pfx ++ [' ']).isPrefixOf (pfx ++ ' ' :: rest)) = true := by
      rw [List.isPrefixOf_iff_prefix]
      exact (List.prefix_append_right_inj pfx).mpr ⟨rest, rfl⟩
    simp [policy.matchPattern, hsuf, htake, hpre]
  · intro hs hhead
    have hc1 : ((pfx ++ s) == pfx) = false :=
      beq_eq_false_iff_ne.mpr fun h => hs (List.append_right_eq_self.mp h)
    have hc2 : ((pfx ++ [' ']).isPrefixOf (pfx ++ s)) = false := by
      cases hx : (pfx ++ [' ']).isPrefixOf (pfx ++ s) with
      | false => rfl
      | true =>
        rw [List.isPrefixOf_iff_prefix] at hx
        obtain ⟨t, ht⟩ := (List.prefix_append_right_inj pfx).mp hx
        exact absurd (by rw [← ht]; rfl) hhead
    have hc3 : ((pfx ++ s) == (pfx ++ ' ' :: '*' :: [])) = false := by
      refine beq_eq_false_iff_ne.mpr fun h => ?_
      have hse := List.append_cancel_left h
      exact hhead (by rw [hse]; rfl)
    have hglob := goMatch_spaceStar_nomatch pfx s hmf hc2
    simp only [policy.matchPattern, htake, hc1, hc2, hc3, hglob, policy.MatchRes.matched]
    simp [hc1, hc2, hc3, hglob, policy.MatchRes.matched]
    intro hstar
    cases pfx with
    | nil => simp at hstar
    | cons a t =>
      simp at hstar
      exact absurd hstar (hmf a (List.mem_cons_self a t)).1

/-- C9, amended, instantiated at the claim's own example: `git *` matches
`git` and `git status` but not `gitconfig`. -/
theorem C9_space_star_semantics_witness :
    policy.matchPattern "git *".data "git".data = true ∧
    policy.matchPattern "git *".data "git status".data = true ∧
    policy.matchPattern "git *".data "gitconfig".data = false := by
  have h := C9_space_star_semantics "git".data "status".data "config".data (by decide)
  exact ⟨h.1, h.2.1, h.2.2 (by decide) (by decide)⟩

/-- C4, counterexample to the quoted reason string: the default-deny reason
is the literal "Command not in allowlist", not the claim's "not in
allowlist". -/
theorem C4_reason_literal_counterexample :
    ((policy.New { Rules := sampleRmRules }).EvaluateCommand
        "some-unknown-tool --flag".data).Allowed = false ∧
    ((policy.New { Rules := sampleRmRules }).EvaluateCommand
        "some-unknown-tool --flag".data).Reason ≠ "not in allowlist".data := by
  decide

end ClaimTheorems
